import Mathlib

/-!
Verification of the memon process-tree memory analyzer.

The Python sources (`memon.py` and `memon-qwen/src/memon/main.py`) are
embedded shallowly: Python strings become `List Char`, Python integers
become `Int` (byte counts that are non-negative by construction become
`Nat`), Python dicts (which iterate in insertion order) become association
lists, and the mutable `ProcessInfo` tree becomes a rose tree of
immutable records.  Fallible code returns `Option`/`Except`.
-/

namespace Memon

/-! ## String helpers (Python string operations on `List Char`) -/

/-- Python `s.startswith(p)`: `p` is a prefix of `s`. -/
def pyStartswith : List Char → List Char → Bool
  | _, [] => true
  | [], _ :: _ => false
  | c :: cs, d :: ds => c == d && pyStartswith cs ds

/-- Python `s.endswith(p)`: `p` is a suffix of `s`. -/
def pyEndswith (s p : List Char) : Bool :=
  pyStartswith s.reverse p.reverse

/-- Python `s.lower()` restricted to ASCII case mapping (process names and
queries are ASCII command names). -/
def toLowerStr (s : List Char) : List Char := s.map Char.toLower

/-- Python `s.split(sep)` for a single separator character: the resulting
list is always non-empty, and empty fields are kept. -/
def splitOnChar (sep : Char) : List Char → List (List Char)
  | [] => [[]]
  | c :: cs =>
    match splitOnChar sep cs with
    | [] => [[]]
    | h :: t => if c == sep then [] :: h :: t else (c :: h) :: t

/-- Python `s.split(sep)[-1]` (the text after the last separator). -/
def lastComponent (sep : Char) (s : List Char) : List Char :=
  (splitOnChar sep s).getLastD []

/-- Python `s.split(sep)[0]` (the text before the first separator). -/
def firstComponent (sep : Char) (s : List Char) : List Char :=
  (splitOnChar sep s).headD []

/-- Python `s.split()` (no argument): split on runs of whitespace,
discarding empty fields.  `acc` holds the reversed current word. -/
def splitWsAux (acc : List Char) : List Char → List (List Char)
  | [] => if acc.isEmpty then [] else [acc.reverse]
  | c :: cs =>
    if c.isWhitespace then
      if acc.isEmpty then splitWsAux [] cs else acc.reverse :: splitWsAux [] cs
    else splitWsAux (c :: acc) cs

/-- Python `s.split()` with no argument. -/
def pySplitWs (s : List Char) : List (List Char) := splitWsAux [] s

/-- Python `str.isdigit()` restricted to ASCII: non-empty and all digits. -/
def pyIsdigit (s : List Char) : Bool := !s.isEmpty && s.all Char.isDigit

/-- The numeric value of a non-empty all-digit string. -/
def digitsToNat (s : List Char) : Option Nat :=
  if s.isEmpty then none
  else if s.all Char.isDigit then
    some (s.foldl (fun acc c => 10 * acc + (c.toNat - 48)) 0)
  else none

/-- Python `int(s)` on an already-whitespace-free field: an optional sign
followed by a non-empty run of digits; anything else raises `ValueError`,
modelled as `none`. -/
def pyInt : List Char → Option Int
  | '-' :: rest => (digitsToNat rest).map (fun n => -(n : Int))
  | '+' :: rest => (digitsToNat rest).map (fun n => (n : Int))
  | s => (digitsToNat s).map (fun n => (n : Int))

/-! ## Name Normalizer & Matcher (`memon.py` lines 211-295) -/

/-- The four executable suffixes stripped by `_is_exact_match`. -/
def stripKnownExt (s : List Char) : List Char :=
  if pyEndswith s ".exe".toList || pyEndswith s ".app".toList ||
     pyEndswith s ".bin".toList || pyEndswith s ".run".toList then
    s.take (s.length - 4)
  else s

/-- `MemoryMonitor._is_exact_match` (both arguments already lowercased by
the caller): the chain of `if ... return True` tests of lines 235-277. -/
def isExactMatch (procName targetName : List Char) : Bool :=
  if 15 ≤ procName.length ∧ pyStartswith targetName procName = true then true
  else if 15 < targetName.length ∧ pyStartswith procName (targetName.take 15) = true then true
  else if procName = targetName then true
  else if pyStartswith targetName procName then true
  else if pyStartswith procName targetName then true
  else
    let procBasename := if procName.contains '/' then lastComponent '/' procName else procName
    let targetBasename := if targetName.contains '/' then lastComponent '/' targetName else targetName
    stripKnownExt procBasename = stripKnownExt targetBasename

/-- `MemoryMonitor._is_app_name_match` (arguments already lowercased):
the `.app`-suffix comparison and the space-compaction comparison. -/
def isAppNameMatch (procName targetName : List Char) : Bool :=
  (if pyEndswith targetName ".app".toList then
     procName = toLowerStr (targetName.take (targetName.length - 4))
   else false) ||
  (if targetName.contains ' ' then
     procName = toLowerStr (targetName.filter (fun c => !(c == ' ')))
   else false)

/-- The name test applied by `get_processes_by_name` to each scanned
process: lowercase both strings, then `_is_exact_match` or
`_is_app_name_match`. -/
def pyMatches (procName query : List Char) : Bool :=
  let p := toLowerStr procName
  let q := toLowerStr query
  isExactMatch p q || isAppNameMatch p q

/-! ## Process trees and ranking (`memon.py` lines 86-99, 439-618) -/

/-- Data carried by one node of a built process tree, mirroring the fields
of `ProcessInfo` (the children are carried by the tree structure). -/
structure NodeData where
  pid : Int
  name : List Char
  rss : Nat
  vsz : Nat
  parentPid : Int
  isMaxMemory : Bool
  isSecondMaxMemory : Bool
  isThirdMaxMemory : Bool
deriving Repr, DecidableEq

/-- A built process tree: one `ProcessInfo` together with its linked
children, in child-list order. -/
inductive ProcTree where
  | mk : NodeData → List ProcTree → ProcTree

mutual

/-- `MemoryMonitor._collect_all_rss_in_tree`: the RSS of every node of
the subtree, root first, then the children in order. -/
def collectAllRssInTree : ProcTree → List Nat
  | .mk d cs => d.rss :: collectAllRssInForest cs

def collectAllRssInForest : List ProcTree → List Nat
  | [] => []
  | t :: ts => collectAllRssInTree t ++ collectAllRssInForest ts

end

mutual

/-- All node records of a tree, depth first, root first. -/
def allNodes : ProcTree → List NodeData
  | .mk d cs => d :: allNodesForest cs

def allNodesForest : List ProcTree → List NodeData
  | [] => []
  | t :: ts => allNodes t ++ allNodesForest ts

end

/-- The flag reset applied to every process by `analyze_process_tree`
(lines 450-453). -/
def clearFlagsData (d : NodeData) : NodeData :=
  { d with isMaxMemory := false, isSecondMaxMemory := false,
           isThirdMaxMemory := false }

mutual

/-- The flag-reset loop of `analyze_process_tree`, restricted to one
tree's nodes. -/
def resetFlags : ProcTree → ProcTree
  | .mk d cs => .mk (clearFlagsData d) (resetFlagsForest cs)

def resetFlagsForest : List ProcTree → List ProcTree
  | [] => []
  | t :: ts => resetFlags t :: resetFlagsForest ts

end

/-- The per-node `if`/`elif` chain of `_mark_memory_highlights_in_tree`
(lines 610-615). -/
def markData (maxRss secondMaxRss thirdMaxRss : Nat) (d : NodeData) : NodeData :=
  if d.rss = maxRss then { d with isMaxMemory := true }
  else if d.rss = secondMaxRss ∧ secondMaxRss > 0 then
    { d with isSecondMaxMemory := true }
  else if d.rss = thirdMaxRss ∧ thirdMaxRss > 0 then
    { d with isThirdMaxMemory := true }
  else d

mutual

/-- `MemoryMonitor._mark_memory_highlights_in_tree`. -/
def markMemoryHighlightsInTree (maxRss secondMaxRss thirdMaxRss : Nat) :
    ProcTree → ProcTree
  | .mk d cs =>
      .mk (markData maxRss secondMaxRss thirdMaxRss d)
          (markMemoryHighlightsInForest maxRss secondMaxRss thirdMaxRss cs)

def markMemoryHighlightsInForest (maxRss secondMaxRss thirdMaxRss : Nat) :
    List ProcTree → List ProcTree
  | [] => []
  | t :: ts =>
      markMemoryHighlightsInTree maxRss secondMaxRss thirdMaxRss t ::
        markMemoryHighlightsInForest maxRss secondMaxRss thirdMaxRss ts

end

/-- Python `max(l)` guarded by `if l else 0`: the maximum of a list of
non-negative values, `0` on the empty list. -/
def pyMaxOr0 (l : List Nat) : Nat := l.foldr max 0

/-- `tree_max_rss` of `analyze_process_tree` (line 517). -/
def treeMaxOf (t : ProcTree) : Nat := pyMaxOr0 (collectAllRssInTree t)

/-- `filtered_rss` of `analyze_process_tree` (line 518). -/
def treeFilteredRss (t : ProcTree) : List Nat :=
  (collectAllRssInTree t).filter (fun rss => rss ≠ treeMaxOf t)

/-- `tree_second_max_rss` of `analyze_process_tree` (line 519). -/
def treeSecondMaxOf (t : ProcTree) : Nat := pyMaxOr0 (treeFilteredRss t)

/-- `tree_third_max_rss` of `analyze_process_tree` (lines 522-526). -/
def treeThirdMaxOf (t : ProcTree) : Nat :=
  if (treeFilteredRss t).length > 0 then
    pyMaxOr0 ((treeFilteredRss t).filter (fun rss => rss ≠ treeSecondMaxOf t))
  else 0

/-- The ranking step of `analyze_process_tree` (lines 516-529): compute
`max`, `second_max`, `third_max` from the collected RSS values and mark. -/
def rankTree (t : ProcTree) : ProcTree :=
  markMemoryHighlightsInTree (treeMaxOf t) (treeSecondMaxOf t) (treeThirdMaxOf t) t

/-- One whole rank-marking pass as `analyze_process_tree` performs it on a
tree: all flags are reset (lines 450-453), then the tree is marked. -/
def analyzeRank (t : ProcTree) : ProcTree := rankTree (resetFlags t)

/-- How many of the three rank flags are set on a node. -/
def flagCount (d : NodeData) : Nat :=
  (if d.isMaxMemory then 1 else 0) + (if d.isSecondMaxMemory then 1 else 0) +
    (if d.isThirdMaxMemory then 1 else 0)

/-! ## Registry, root selection, tree building (`memon.py` lines 297-339) -/

/-- A registry entry: `ProcessInfo` as stored in `MemoryMonitor.processes`,
with its child list kept as a list of pids (registry keys are unique, so a
child object reference is determined by its pid). -/
structure RegEntry where
  name : List Char
  rss : Nat
  vsz : Nat
  parentPid : Int
  children : List Int
deriving Repr, DecidableEq

/-- `MemoryMonitor.processes`: a pid-keyed insertion-ordered mapping. -/
abbrev Registry := List (Int × RegEntry)

/-- `MemoryMonitor.find_root_processes` (lines 326-339): keep, in order,
the matching pids present in the registry whose parent is not matching,
or is the init pid 1, or is absent from the registry. -/
def findRootProcesses (matchingPids : List Int) (reg : Registry) : List Int :=
  matchingPids.filter (fun pid =>
    match List.lookup pid reg with
    | none => false
    | some info =>
        !(matchingPids.contains info.parentPid) || info.parentPid == 1 ||
          !(List.lookup info.parentPid reg).isSome)

/-- The child list rebuilt for the entry keyed `k` by the relink loop of
`build_process_tree`: the pids of the registry entries whose parent pid is
`k`, in registry iteration order (an entry whose parent pid is not a
registry key is appended nowhere). -/
def childList (reg : Registry) (k : Int) : List Int :=
  (reg.filter (fun c => c.2.parentPid == k)).map (fun c => c.1)

/-- The clear-and-relink pass of `build_process_tree` (lines 315-322):
every entry's child list is cleared, then every entry whose parent pid is
a registry key is appended to that parent's child list, in registry
iteration order. -/
def relink (reg : Registry) : Registry :=
  reg.map (fun e => (e.1, { e.2 with children := childList reg e.1 }))

/-- `MemoryMonitor.build_process_tree` (lines 310-324): `none` (registry
untouched) when the root pid is absent, otherwise the relinked registry
together with its entry for the root pid. -/
def buildProcessTree (rootPid : Int) (reg : Registry) : Option RegEntry × Registry :=
  if (List.lookup rootPid reg).isSome then
    ((List.lookup rootPid (relink reg)), relink reg)
  else (none, reg)

/-- `a` is a proper ancestor of `p`: following `parent_pid` links
transitively through the registry, starting from `p`, reaches `a`. -/
inductive IsProperAncestor (reg : Registry) : Int → Int → Prop where
  | parentLink {p : Int} {info : RegEntry} :
      List.lookup p reg = some info → IsProperAncestor reg info.parentPid p
  | chainLink {a p : Int} {info : RegEntry} :
      IsProperAncestor reg a p → List.lookup a reg = some info →
      IsProperAncestor reg info.parentPid p

/-! ## Raw process-listing parse, Linux branch (`memon.py` lines 155-195) -/

/-- One parsed raw process record. -/
structure RawProc where
  pid : Int
  ppid : Int
  name : List Char
  rss : Int
  vsz : Int
deriving Repr, DecidableEq

/-- `MemoryMonitor._extract_process_name` (lines 197-209). -/
def extractProcessName (command : List Char) : List Char :=
  if command.contains '/' then
    let name := lastComponent '/' command
    if name.contains ' ' then firstComponent ' ' name else name
  else firstComponent ' ' command

/-- One iteration of the Linux parsing loop of `_get_all_processes`
(lines 158-193).  The state is the pair `(rss_index, vsz_index)` if those
function-scoped locals have been assigned by an earlier iteration, else
`none`.  `Except.error` models the `NameError` raised when `rss_index` is
read before any assignment — an exception the loop's
`except (ValueError, IndexError)` does not catch, so it aborts the scan. -/
def parseLine (idxState : Option (Nat × Nat)) (line : List Char) :
    Except Unit (Option (Nat × Nat) × Option RawProc) :=
  if line.all Char.isWhitespace then .ok (idxState, none)
  else
    let parts := pySplitWs line
    if 5 ≤ parts.length then
      match pyInt (parts.getD 0 []) with
      | none => .ok (idxState, none)
      | some pid =>
      match pyInt (parts.getD 1 []) with
      | none => .ok (idxState, none)
      | some ppid =>
        let numericIndices :=
          (List.range parts.length).filter
            (fun i => decide (2 ≤ i) && pyIsdigit (parts.getD i []))
        let idxState' :=
          if 2 ≤ numericIndices.length then
            some (numericIndices.getD (numericIndices.length - 2) 0,
                  numericIndices.getD (numericIndices.length - 1) 0)
          else idxState
        match idxState' with
        | none => .error ()
        | some (rssIndex, vszIndex) =>
          if vszIndex < parts.length then
            let command := List.intercalate [' '] ((parts.take rssIndex).drop 2)
            match pyInt (parts.getD rssIndex []) with
            | none => .ok (idxState', none)
            | some rssV =>
            match pyInt (parts.getD vszIndex []) with
            | none => .ok (idxState', none)
            | some vszV =>
              .ok (idxState',
                   some ⟨pid, ppid, extractProcessName command, rssV * 1024, vszV * 1024⟩)
          else .ok (idxState', none)
    else .ok (idxState, none)

/-- The Linux parsing loop over the data lines (header already dropped),
threading the index state and collecting the parsed records; an uncaught
exception aborts the whole scan. -/
def parseLines (idxState : Option (Nat × Nat)) :
    List (List Char) → Except Unit (List RawProc)
  | [] => .ok []
  | l :: ls =>
    match parseLine idxState l with
    | .error e => .error e
    | .ok (idxState', found) =>
      match parseLines idxState' ls with
      | .error e => .error e
      | .ok rest => .ok (found.toList ++ rest)

/-- `MemoryMonitor._get_all_processes`, Linux branch, applied to the data
lines of the `ps` output. -/
def getAllProcesses (lines : List (List Char)) : Except Unit (List RawProc) :=
  parseLines none lines

/-! ## Memory formatting (`memon.py` lines 341-352) -/

/-- Round-half-even of a rational, as Python's float formatting rounds. -/
def roundHalfEven (q : ℚ) : ℤ :=
  if q - ⌊q⌋ < 1/2 then ⌊q⌋
  else if 1/2 < q - ⌊q⌋ then ⌊q⌋ + 1
  else if ⌊q⌋ % 2 = 0 then ⌊q⌋ else ⌊q⌋ + 1

/-- The rendered output of `format_memory`: the literal `"0B"`, or a
one-decimal number of megabytes or gigabytes (`tenths` is the rendered
number times ten, so `megabytes 15` renders as `"1.5MB"`). -/
inductive MemFormat where
  | zeroBytes
  | megabytes (tenths : ℤ)
  | gigabytes (tenths : ℤ)
deriving Repr, DecidableEq

/-- `MemoryMonitor.format_memory`, with Python's float arithmetic embedded
as exact rational arithmetic. -/
def formatMemory (bytesValue : ℕ) : MemFormat :=
  if bytesValue = 0 then .zeroBytes
  else
    let mb : ℚ := (bytesValue : ℚ) / (1024 * 1024)
    let gb : ℚ := mb / 1024
    if 1 ≤ gb then .gigabytes (roundHalfEven (10 * gb))
    else .megabytes (roundHalfEven (10 * mb))

/-! ## CLI dispatch of the watch flag (`memon-qwen/src/memon/main.py`
lines 271-306) -/

/-- Python truthiness of `args.watch : Optional[int]`. -/
def optIntTruthy : Option Int → Bool
  | none => false
  | some s => s != 0

/-- What `main` does with the parsed `--watch` value: `if args.watch:`
(truthiness), then inside that branch `if args.watch <= 0: sys.exit(1)`,
else the watch loop; otherwise a single analysis run. -/
inductive MainAction where
  | exitError
  | watchLoop (seconds : Int)
  | singleRun
deriving Repr, DecidableEq

def mainDispatch (watch : Option Int) : MainAction :=
  if optIntTruthy watch then
    match watch with
    | none => .singleRun
    | some s => if s ≤ 0 then .exitError else .watchLoop s
  else .singleRun

end Memon

namespace Memon

/-! ## Helper lemmas -/

theorem pyStartswith_nil_left (s : List Char) : pyStartswith s [] = true := by
  cases s <;> rfl

theorem pyStartswith_map (f : Char → Char) :
    ∀ (s p : List Char), pyStartswith s p = true →
      pyStartswith (s.map f) (p.map f) = true
  | _, [], _ => by rw [List.map_nil, pyStartswith_nil_left]
  | [], _ :: _, h => by simp [pyStartswith] at h
  | c :: cs, d :: ds, h => by
      rw [pyStartswith, Bool.and_eq_true, beq_iff_eq] at h
      rw [List.map_cons, List.map_cons, pyStartswith, Bool.and_eq_true, beq_iff_eq]
      exact ⟨by rw [h.1], pyStartswith_map f cs ds h.2⟩

theorem char_toLower_toNat_bounds {n : Nat} (h1 : 97 ≤ n) (h2 : n ≤ 122) :
    (Char.ofNat n).toNat = n := by
  interval_cases n <;> rfl

theorem char_toLower_idem (c : Char) : c.toLower.toLower = c.toLower := by
  unfold Char.toLower
  by_cases h : c.toNat ≥ 65 ∧ c.toNat ≤ 90
  · rw [if_pos h]
    have hn : (Char.ofNat (c.toNat + 32)).toNat = c.toNat + 32 :=
      char_toLower_toNat_bounds (by omega) (by omega)
    rw [if_neg (by rw [hn]; omega)]
  · rw [if_neg h, if_neg h]

theorem toLowerStr_idem (s : List Char) : toLowerStr (toLowerStr s) = toLowerStr s := by
  simp only [toLowerStr, List.map_map]
  induction s with
  | nil => rfl
  | cons c cs ih =>
      rw [List.map_cons, List.map_cons]
      exact congrArg₂ List.cons (char_toLower_idem c) ih

theorem toLowerStr_length (s : List Char) : (toLowerStr s).length = s.length :=
  List.length_map s Char.toLower

theorem toLowerStr_take (n : Nat) (s : List Char) :
    toLowerStr (s.take n) = (toLowerStr s).take n :=
  List.map_take Char.toLower s n

theorem isExactMatch_of_cond1 {p q : List Char} (h1 : 15 ≤ p.length)
    (h2 : pyStartswith q p = true) : isExactMatch p q = true := by
  unfold isExactMatch
  rw [if_pos ⟨h1, h2⟩]

theorem isExactMatch_of_cond2 {p q : List Char} (h1 : 15 < q.length)
    (h2 : pyStartswith p (q.take 15) = true) : isExactMatch p q = true := by
  unfold isExactMatch
  by_cases hc1 : 15 ≤ p.length ∧ pyStartswith q p = true
  · rw [if_pos hc1]
  · rw [if_neg hc1, if_pos ⟨h1, h2⟩]

end Memon

namespace Memon

/-! ## Claims about the matcher -/

/-- Claim C2: the name matcher is a case-insensitive pure function of the
two strings.  Query `"firefox"` matches process names `"firefox"`,
`"Firefox"` and `"firefox-developer"`, and a prefix match works in either
direction; whenever a process name has length at least 15 and the query
starts with it, the matcher accepts (truncated-name recovery); whenever a
query is longer than 15 characters and the process name starts with the
query's first 15 characters, the matcher accepts; lowercasing the inputs
does not change the result; and `"firefox"` does not match `"chrome"`. -/
theorem claim2_matcher_behavior :
    pyMatches "firefox".toList "firefox".toList = true ∧
    pyMatches "Firefox".toList "firefox".toList = true ∧
    pyMatches "firefox-developer".toList "firefox".toList = true ∧
    pyMatches "firefox".toList "firefox-developer".toList = true ∧
    (∀ p q : List Char, 15 ≤ p.length → pyStartswith q p = true →
      pyMatches p q = true) ∧
    (∀ p q : List Char, 15 < q.length → pyStartswith p (q.take 15) = true →
      pyMatches p q = true) ∧
    (∀ p q : List Char, pyMatches (toLowerStr p) (toLowerStr q) = pyMatches p q) ∧
    pyMatches "chrome".toList "firefox".toList = false := by
  refine ⟨by decide, by decide, by decide, by decide, ?_, ?_, ?_, by decide⟩
  · intro p q h1 h2
    rw [pyMatches, Bool.or_eq_true]
    left
    exact isExactMatch_of_cond1 (by rw [toLowerStr_length]; exact h1)
      (pyStartswith_map Char.toLower q p h2)
  · intro p q h1 h2
    rw [pyMatches, Bool.or_eq_true]
    left
    refine isExactMatch_of_cond2 (by rw [toLowerStr_length]; exact h1) ?_
    rw [← toLowerStr_take]
    exact pyStartswith_map Char.toLower p (q.take 15) h2
  · intro p q
    rw [pyMatches, pyMatches, toLowerStr_idem, toLowerStr_idem]

/-- Witness for C2: the truncated-name recovery rule at a concrete pair, a
16-character process name and a query that starts with it. -/
theorem claim2_witness :
    pyMatches "abcdefghijklmnop".toList "abcdefghijklmnopqr".toList = true :=
  claim2_matcher_behavior.2.2.2.2.1 "abcdefghijklmnop".toList
    "abcdefghijklmnopqr".toList (by decide) (by decide)

/-- Claim C9: the matcher accepts the empty query against every process
name, because every string starts with the empty string. -/
theorem claim9_empty_query_matches_everything (s : List Char) :
    pyMatches s [] = true := by
  rw [pyMatches, Bool.or_eq_true]
  left
  have h5 : pyStartswith (toLowerStr s) (toLowerStr []) = true :=
    pyStartswith_nil_left _
  unfold isExactMatch
  split
  · rfl
  split
  · rfl
  split
  · rfl
  split
  · rfl
  rfl


/-- Witness for C9: the empty query matches the process name `"chrome"`. -/
theorem claim9_witness : pyMatches "chrome".toList [] = true :=
  claim9_empty_query_matches_everything "chrome".toList

/-! ## Claims decided by evaluating the embedded code -/

/-- Claim C6 (code bug): a malformed record is supposed to be skipped with
the scan continuing, but a record with enough fields, numeric pid and
parent, and fewer than two all-digit fields after them makes the loop read
`rss_index` before any assignment.  The resulting `NameError` is not
caught by the loop's `except (ValueError, IndexError)`, so the whole scan
aborts and the following well-formed record is lost, even though that
record parses fine on its own. -/
theorem claim6_malformed_record_aborts_scan :
    getAllProcesses ["12 1 foo bar baz".toList, "13 1 bash 100 200".toList] =
      .error () ∧
    getAllProcesses ["13 1 bash 100 200".toList] =
      .ok [{ pid := 13, ppid := 1, name := "bash".toList,
             rss := 102400, vsz := 204800 }] :=
  ⟨rfl, rfl⟩

/-- Claim C8 (code bug): `--watch 0` is supposed to exit with status 1,
but `if args.watch:` is a truthiness test, so the value 0 skips the watch
branch — and with it the `args.watch <= 0` check — and the program runs a
single analysis instead.  Negative values do reach the check and exit. -/
theorem claim8_watch_zero_runs_single_analysis :
    mainDispatch (some 0) = .singleRun ∧
    mainDispatch (some 0) ≠ .exitError ∧
    mainDispatch (some (-3)) = .exitError ∧
    mainDispatch (some 2) = .watchLoop 2 ∧
    mainDispatch none = .singleRun := by
  refine ⟨rfl, by decide, rfl, rfl, rfl⟩

end Memon

namespace Memon

/-! ## Root selection and tree building -/

/-- The Boolean root test of `find_root_processes`, as a proposition, for
a pid whose registry entry is `info`. -/
theorem findRoot_cond_iff (matchingPids : List Int) (reg : Registry)
    (info : RegEntry) :
    (!(matchingPids.contains info.parentPid) || info.parentPid == 1 ||
        !(List.lookup info.parentPid reg).isSome) = true ↔
      (info.parentPid ∉ matchingPids ∨ info.parentPid = 1 ∨
        List.lookup info.parentPid reg = none) := by
  simp [Bool.or_eq_true, Option.isSome_iff_exists, List.elem_iff,
    Option.eq_none_iff_forall_not_mem]
  tauto

/-- Claim C3: for matching pids whose entries are all present in the
registry, a pid is returned as a root iff it is a matching pid whose
parent pid is not in the matching pids, or equals the init sentinel 1, or
is absent from the registry; the roots come back in the iteration order
of the matching pids (a sublist); and on the concrete example of the spec
(pids 10, 20, 30 with parents 1, 10, 1) the roots are exactly 10 and 30. -/
theorem claim3_root_selector (matchingPids : List Int) (reg : Registry)
    (hpresent : ∀ p ∈ matchingPids, (List.lookup p reg).isSome) :
    (∀ pid : Int,
        pid ∈ findRootProcesses matchingPids reg ↔
          pid ∈ matchingPids ∧ ∃ info, List.lookup pid reg = some info ∧
            (info.parentPid ∉ matchingPids ∨ info.parentPid = 1 ∨
              List.lookup info.parentPid reg = none)) ∧
    List.Sublist (findRootProcesses matchingPids reg) matchingPids ∧
    findRootProcesses [10, 20, 30]
        [(10, ⟨[], 0, 0, 1, []⟩), (20, ⟨[], 0, 0, 10, []⟩),
         (30, ⟨[], 0, 0, 1, []⟩)] = [10, 30] := by
  refine ⟨?_, List.filter_sublist _, by decide⟩
  intro pid
  rw [findRootProcesses, List.mem_filter]
  constructor
  · rintro ⟨hmem, hcond⟩
    refine ⟨hmem, ?_⟩
    obtain ⟨info, hinfo⟩ := Option.isSome_iff_exists.mp (hpresent pid hmem)
    rw [hinfo] at hcond
    exact ⟨info, hinfo, (findRoot_cond_iff matchingPids reg info).mp hcond⟩
  · rintro ⟨hmem, info, hinfo, hcond⟩
    refine ⟨hmem, ?_⟩
    rw [hinfo]
    exact (findRoot_cond_iff matchingPids reg info).mpr hcond

/-- Witness for C3: the characterization instantiated on the spec's
concrete example, applied at pid 10. -/
theorem claim3_witness :
    10 ∈ findRootProcesses [10, 20, 30]
        [(10, ⟨[], 0, 0, 1, []⟩), (20, ⟨[], 0, 0, 10, []⟩),
         (30, ⟨[], 0, 0, 1, []⟩)] ↔
      (10 : Int) ∈ [(10 : Int), 20, 30] ∧
        ∃ info : RegEntry,
          List.lookup (10 : Int)
              [((10 : Int), (⟨[], 0, 0, 1, []⟩ : RegEntry)),
               (20, ⟨[], 0, 0, 10, []⟩), (30, ⟨[], 0, 0, 1, []⟩)] = some info ∧
            (info.parentPid ∉ [(10 : Int), 20, 30] ∨ info.parentPid = 1 ∨
              List.lookup info.parentPid
                  [((10 : Int), (⟨[], 0, 0, 1, []⟩ : RegEntry)),
                   (20, ⟨[], 0, 0, 10, []⟩), (30, ⟨[], 0, 0, 1, []⟩)] = none) :=
  (claim3_root_selector [10, 20, 30]
      [(10, ⟨[], 0, 0, 1, []⟩), (20, ⟨[], 0, 0, 10, []⟩),
       (30, ⟨[], 0, 0, 1, []⟩)] (by decide)).1 10

end Memon

namespace Memon

theorem lookup_map_entry (F : Int → RegEntry → RegEntry) :
    ∀ (l : Registry) (k : Int),
      List.lookup k (l.map (fun e => (e.1, F e.1 e.2))) = (List.lookup k l).map (F k)
  | [], _ => rfl
  | (a, b) :: tl, k => by
    by_cases h : k = a
    · subst h
      simp [List.lookup]
    · have hb : (k == a) = false := beq_eq_false_iff_ne.mpr h
      simp [List.lookup, hb, lookup_map_entry F tl k]

/-- Relinking does not change keys or parent pids, so the child lists a
second relink computes agree with the first ones. -/
theorem childList_relink (reg : Registry) (k : Int) :
    childList (relink reg) k = childList reg k := by
  unfold childList relink
  rw [List.filter_map, List.map_map]
  rfl

theorem relink_relink (reg : Registry) : relink (relink reg) = relink reg := by
  show (relink reg).map (fun e => (e.1, { e.2 with children := childList (relink reg) e.1 })) =
      relink reg
  simp only [childList_relink]
  show (reg.map (fun e => (e.1, { e.2 with children := childList reg e.1 }))).map
        (fun e => (e.1, { e.2 with children := childList reg e.1 })) = relink reg
  rw [List.map_map]
  apply List.map_congr_left
  intro e _
  rfl

theorem lookup_relink (reg : Registry) (k : Int) :
    List.lookup k (relink reg) =
      (List.lookup k reg).map (fun n => { n with children := childList reg k }) :=
  lookup_map_entry (fun k n => { n with children := childList reg k }) reg k

/-- Claim C4: tree building is idempotent.  For every registry and every
root pid present in it, running `build_process_tree` a second time on the
registry left by the first run returns the same root entry and the same
registry — node sets and per-node child lists included — because every
child list is cleared before relinking. -/
theorem claim4_build_process_tree_idempotent (reg : Registry) (rootPid : Int)
    (h : (List.lookup rootPid reg).isSome) :
    buildProcessTree rootPid (buildProcessTree rootPid reg).2 =
      buildProcessTree rootPid reg := by
  have h2 : (List.lookup rootPid (relink reg)).isSome = true := by
    rw [lookup_relink]
    cases hx : List.lookup rootPid reg with
    | none => rw [hx] at h; simp at h
    | some info => rfl
  have hsnd : (buildProcessTree rootPid reg).2 = relink reg := by
    rw [buildProcessTree, if_pos h]
  rw [hsnd]
  calc buildProcessTree rootPid (relink reg)
      = (List.lookup rootPid (relink (relink reg)), relink (relink reg)) := by
        rw [buildProcessTree, if_pos h2]
    _ = (List.lookup rootPid (relink reg), relink reg) := by rw [relink_relink]
    _ = buildProcessTree rootPid reg := by rw [buildProcessTree, if_pos h]

/-- Witness for C4: idempotence on a concrete three-process registry. -/
theorem claim4_witness :
    buildProcessTree 10
        (buildProcessTree 10
          [((10 : Int), (⟨[], 0, 0, 1, []⟩ : RegEntry)),
           (20, ⟨[], 0, 0, 10, []⟩), (30, ⟨[], 0, 0, 20, []⟩)]).2 =
      buildProcessTree 10
        [((10 : Int), (⟨[], 0, 0, 1, []⟩ : RegEntry)),
         (20, ⟨[], 0, 0, 10, []⟩), (30, ⟨[], 0, 0, 20, []⟩)] :=
  claim4_build_process_tree_idempotent
    [((10 : Int), (⟨[], 0, 0, 1, []⟩ : RegEntry)),
     (20, ⟨[], 0, 0, 10, []⟩), (30, ⟨[], 0, 0, 20, []⟩)] 10 (by decide)

/-- Counterexample to C5: with registry parents 30 → 20 → 10 → 1 and
matched set `[10, 30]`, the selector returns 30 as a root (its immediate
parent 20 is unmatched) even though its proper ancestor 10 — reached
through the intermediate non-matching process 20 — is in the matched
set.  So a returned root can have a matched ancestor. -/
theorem claim5_counterexample :
    30 ∈ findRootProcesses [10, 30]
        [((10 : Int), (⟨[], 0, 0, 1, []⟩ : RegEntry)),
         (20, ⟨[], 0, 0, 10, []⟩), (30, ⟨[], 0, 0, 20, []⟩)] ∧
    IsProperAncestor
        [((10 : Int), (⟨[], 0, 0, 1, []⟩ : RegEntry)),
         (20, ⟨[], 0, 0, 10, []⟩), (30, ⟨[], 0, 0, 20, []⟩)] 10 30 ∧
    (10 : Int) ∈ [(10 : Int), 30] := by
  refine ⟨by decide, ?_, by decide⟩
  have hl30 : List.lookup (30 : Int)
      [((10 : Int), (⟨[], 0, 0, 1, []⟩ : RegEntry)),
       (20, ⟨[], 0, 0, 10, []⟩), (30, ⟨[], 0, 0, 20, []⟩)] =
      some ⟨[], 0, 0, 20, []⟩ := by decide
  have hl20 : List.lookup (20 : Int)
      [((10 : Int), (⟨[], 0, 0, 1, []⟩ : RegEntry)),
       (20, ⟨[], 0, 0, 10, []⟩), (30, ⟨[], 0, 0, 20, []⟩)] =
      some ⟨[], 0, 0, 10, []⟩ := by decide
  have h1 : IsProperAncestor
      [((10 : Int), (⟨[], 0, 0, 1, []⟩ : RegEntry)),
       (20, ⟨[], 0, 0, 10, []⟩), (30, ⟨[], 0, 0, 20, []⟩)] 20 30 :=
    IsProperAncestor.parentLink hl30
  exact IsProperAncestor.chainLink h1 hl20

/-- Claim C5 as amended: a pid returned by the root selector only has its
immediate parent constrained — the parent is not in the matched set, or
equals the init sentinel 1, or is absent from the registry.  Matched
proper ancestors further up, reached through intermediate non-matching
processes, are not excluded. -/
theorem claim5_amended_root_parent_rule (matchingPids : List Int)
    (reg : Registry) (p : Int) (hp : p ∈ findRootProcesses matchingPids reg) :
    ∃ info, List.lookup p reg = some info ∧
      (info.parentPid ∉ matchingPids ∨ info.parentPid = 1 ∨
        List.lookup info.parentPid reg = none) := by
  rw [findRootProcesses, List.mem_filter] at hp
  obtain ⟨-, hcond⟩ := hp
  cases hlk : List.lookup p reg with
  | none => rw [hlk] at hcond; simp at hcond
  | some info =>
      rw [hlk] at hcond
      exact ⟨info, rfl, (findRoot_cond_iff matchingPids reg info).mp hcond⟩

/-- Witness for C5's amended claim, at the counterexample registry and
root 30. -/
theorem claim5_witness :
    ∃ info : RegEntry,
      List.lookup (30 : Int)
          [((10 : Int), (⟨[], 0, 0, 1, []⟩ : RegEntry)),
           (20, ⟨[], 0, 0, 10, []⟩), (30, ⟨[], 0, 0, 20, []⟩)] = some info ∧
        (info.parentPid ∉ [(10 : Int), 30] ∨ info.parentPid = 1 ∨
          List.lookup info.parentPid
              [((10 : Int), (⟨[], 0, 0, 1, []⟩ : RegEntry)),
               (20, ⟨[], 0, 0, 10, []⟩), (30, ⟨[], 0, 0, 20, []⟩)] = none) :=
  claim5_amended_root_parent_rule [10, 30]
    [((10 : Int), (⟨[], 0, 0, 1, []⟩ : RegEntry)),
     (20, ⟨[], 0, 0, 10, []⟩), (30, ⟨[], 0, 0, 20, []⟩)] 30 (by decide)

end Memon

namespace Memon

/-! ## Tree-walk lemmas for the ranking pass -/


mutual

theorem allNodes_mark (m s th : Nat) :
    ∀ t : ProcTree,
      allNodes (markMemoryHighlightsInTree m s th t) =
        (allNodes t).map (markData m s th)
  | .mk d cs => by
      rw [markMemoryHighlightsInTree, allNodes, allNodes, List.map_cons,
        allNodesForest_mark m s th cs]

theorem allNodesForest_mark (m s th : Nat) :
    ∀ ts : List ProcTree,
      allNodesForest (markMemoryHighlightsInForest m s th ts) =
        (allNodesForest ts).map (markData m s th)
  | [] => rfl
  | t :: ts => by
      rw [markMemoryHighlightsInForest, allNodesForest, allNodesForest,
        List.map_append, allNodes_mark m s th t, allNodesForest_mark m s th ts]

end

mutual

theorem allNodes_reset :
    ∀ t : ProcTree, allNodes (resetFlags t) = (allNodes t).map clearFlagsData
  | .mk d cs => by
      rw [resetFlags, allNodes, allNodes, List.map_cons, allNodesForest_reset cs]

theorem allNodesForest_reset :
    ∀ ts : List ProcTree,
      allNodesForest (resetFlagsForest ts) = (allNodesForest ts).map clearFlagsData
  | [] => rfl
  | t :: ts => by
      rw [resetFlagsForest, allNodesForest, allNodesForest, List.map_append,
        allNodes_reset t, allNodesForest_reset ts]

end

mutual

theorem collect_eq_map_rss :
    ∀ t : ProcTree, collectAllRssInTree t = (allNodes t).map (fun d => d.rss)
  | .mk d cs => by
      rw [collectAllRssInTree, allNodes, List.map_cons, collectForest_eq_map_rss cs]

theorem collectForest_eq_map_rss :
    ∀ ts : List ProcTree,
      collectAllRssInForest ts = (allNodesForest ts).map (fun d => d.rss)
  | [] => rfl
  | t :: ts => by
      rw [collectAllRssInForest, allNodesForest, List.map_append,
        collect_eq_map_rss t, collectForest_eq_map_rss ts]

end

theorem collect_resetFlags (t : ProcTree) :
    collectAllRssInTree (resetFlags t) = collectAllRssInTree t := by
  rw [collect_eq_map_rss, collect_eq_map_rss, allNodes_reset, List.map_map]
  rfl


theorem le_pyMaxOr0 : ∀ {l : List Nat} {v : Nat}, v ∈ l → v ≤ pyMaxOr0 l := by
  intro l
  induction l with
  | nil => intro v h; cases h
  | cons x xs ih =>
      intro v h
      rw [pyMaxOr0, List.foldr_cons]
      rcases List.mem_cons.mp h with rfl | hmem
      · exact le_max_left _ _
      · exact le_trans (ih hmem) (le_max_right _ _)

theorem pyMaxOr0_mem : ∀ {l : List Nat}, l ≠ [] → pyMaxOr0 l ∈ l := by
  intro l
  induction l with
  | nil => intro h; exact absurd rfl h
  | cons x xs ih =>
      intro _
      rw [pyMaxOr0, List.foldr_cons]
      rcases max_cases x (List.foldr max 0 xs) with ⟨heq, -⟩ | ⟨heq, hle⟩
      · rw [heq]; exact List.mem_cons_self x xs
      · rw [heq]
        cases xs with
        | nil =>
            simp only [List.foldr_nil] at hle ⊢
            simp only [List.mem_singleton]
            omega
        | cons y ys => exact List.mem_cons_of_mem x (ih (by simp))

theorem pyMaxOr0_mem_of_pos {l : List Nat} (h : 0 < pyMaxOr0 l) : pyMaxOr0 l ∈ l := by
  cases l with
  | nil => simp [pyMaxOr0] at h
  | cons x xs => exact pyMaxOr0_mem (by simp)


theorem collect_ne_nil (t : ProcTree) : collectAllRssInTree t ≠ [] := by
  cases t with
  | mk d cs => rw [collectAllRssInTree]; exact List.cons_ne_nil _ _

theorem treeMaxOf_reset (t : ProcTree) : treeMaxOf (resetFlags t) = treeMaxOf t := by
  rw [treeMaxOf, treeMaxOf, collect_resetFlags]

theorem treeFilteredRss_reset (t : ProcTree) :
    treeFilteredRss (resetFlags t) = treeFilteredRss t := by
  rw [treeFilteredRss, treeFilteredRss, collect_resetFlags, treeMaxOf_reset]

theorem treeSecondMaxOf_reset (t : ProcTree) :
    treeSecondMaxOf (resetFlags t) = treeSecondMaxOf t := by
  rw [treeSecondMaxOf, treeSecondMaxOf, treeFilteredRss_reset]

theorem treeThirdMaxOf_reset (t : ProcTree) :
    treeThirdMaxOf (resetFlags t) = treeThirdMaxOf t := by
  rw [treeThirdMaxOf, treeThirdMaxOf, treeFilteredRss_reset, treeSecondMaxOf_reset]

theorem analyzeRank_eq (t : ProcTree) :
    analyzeRank t =
      markMemoryHighlightsInTree (treeMaxOf t) (treeSecondMaxOf t)
        (treeThirdMaxOf t) (resetFlags t) := by
  rw [analyzeRank, rankTree, treeMaxOf_reset, treeSecondMaxOf_reset, treeThirdMaxOf_reset]

theorem markData_rss (m s th : Nat) (d : NodeData) :
    (markData m s th d).rss = d.rss := by
  unfold markData
  split
  · rfl
  split
  · rfl
  split
  · rfl
  · rfl

theorem markData_flags_of_cleared (m s th : Nat) (d : NodeData)
    (h1 : d.isMaxMemory = false) (h2 : d.isSecondMaxMemory = false)
    (h3 : d.isThirdMaxMemory = false) :
    ((markData m s th d).isMaxMemory = true ↔ d.rss = m) ∧
    ((markData m s th d).isSecondMaxMemory = true ↔
      d.rss ≠ m ∧ d.rss = s ∧ 0 < s) ∧
    ((markData m s th d).isThirdMaxMemory = true ↔
      d.rss ≠ m ∧ ¬(d.rss = s ∧ 0 < s) ∧ d.rss = th ∧ 0 < th) := by
  unfold markData
  by_cases hc1 : d.rss = m
  · rw [if_pos hc1]
    refine ⟨iff_of_true rfl hc1, ?_, ?_⟩
    · exact iff_of_false (by simp [h2]) (fun h => h.1 hc1)
    · exact iff_of_false (by simp [h3]) (fun h => h.1 hc1)
  · rw [if_neg hc1]
    by_cases hc2 : d.rss = s ∧ s > 0
    · rw [if_pos hc2]
      refine ⟨iff_of_false (by simp [h1]) hc1, ?_, ?_⟩
      · exact iff_of_true rfl ⟨hc1, hc2.1, hc2.2⟩
      · exact iff_of_false (by simp [h3]) (fun h => h.2.1 hc2)
    · rw [if_neg hc2]
      by_cases hc3 : d.rss = th ∧ th > 0
      · rw [if_pos hc3]
        refine ⟨iff_of_false (by simp [h1]) hc1, ?_, ?_⟩
        · exact iff_of_false (by simp [h2]) (fun h => hc2 ⟨h.2.1, h.2.2⟩)
        · exact iff_of_true rfl ⟨hc1, hc2, hc3.1, hc3.2⟩
      · rw [if_neg hc3]
        refine ⟨iff_of_false (by simp [h1]) hc1, ?_, ?_⟩
        · exact iff_of_false (by simp [h2]) (fun h => hc2 ⟨h.2.1, h.2.2⟩)
        · exact iff_of_false (by simp [h3]) (fun h => hc3 ⟨h.2.2.1, h.2.2.2⟩)

theorem secondMax_ne_max_of_pos (t : ProcTree) (h : 0 < treeSecondMaxOf t) :
    treeSecondMaxOf t ≠ treeMaxOf t := by
  have hmem : treeSecondMaxOf t ∈ treeFilteredRss t := pyMaxOr0_mem_of_pos h
  rw [treeFilteredRss, List.mem_filter] at hmem
  exact of_decide_eq_true hmem.2

theorem thirdMax_props_of_pos (t : ProcTree) (h : 0 < treeThirdMaxOf t) :
    treeThirdMaxOf t ≠ treeMaxOf t ∧ treeThirdMaxOf t ≠ treeSecondMaxOf t := by
  rw [treeThirdMaxOf] at h ⊢
  by_cases hc : (treeFilteredRss t).length > 0
  · rw [if_pos hc] at h ⊢
    have hmem := pyMaxOr0_mem_of_pos h
    rw [List.mem_filter] at hmem
    have hfr := hmem.1
    rw [treeFilteredRss, List.mem_filter] at hfr
    exact ⟨of_decide_eq_true hfr.2, of_decide_eq_true hmem.2⟩
  · rw [if_neg hc] at h
    exact absurd h (lt_irrefl 0)

/-! ## Claims about the ranking pass -/

/-- Claim C10: after the per-run flag reset, one marking pass sets at most
one of the three rank flags on each node, for any `max`, `second_max`,
`third_max` arguments, because the per-node tests form an `if`/`elif`
chain. -/
theorem claim10_rank_flags_mutually_exclusive (m s th : Nat) (t : ProcTree)
    (hclear : ∀ d ∈ allNodes t,
      d.isMaxMemory = false ∧ d.isSecondMaxMemory = false ∧
        d.isThirdMaxMemory = false) :
    ∀ d ∈ allNodes (markMemoryHighlightsInTree m s th t), flagCount d ≤ 1 := by
  intro d hd
  rw [allNodes_mark] at hd
  obtain ⟨d0, hd0, rfl⟩ := List.mem_map.mp hd
  obtain ⟨h1, h2, h3⟩ := hclear d0 hd0
  unfold markData flagCount
  split
  · simp [h2, h3]
  split
  · simp [h1, h3]
  split
  · simp [h1, h2]
  · simp [h1, h2, h3]

/-- Witness for C10: a marked single-node tree, whose one node carries
exactly one flag. -/
theorem claim10_witness :
    flagCount { pid := 1, name := [], rss := 5, vsz := 0, parentPid := 1,
                isMaxMemory := true, isSecondMaxMemory := false,
                isThirdMaxMemory := false } ≤ 1 :=
  claim10_rank_flags_mutually_exclusive 5 3 1
    (.mk ⟨1, [], 5, 0, 1, false, false, false⟩ []) (by decide) _ (by decide)

end Memon

namespace Memon

/-- Claim C1: for every built process tree, the ranking pass computes
`max` as the maximum of the subtree's RSS values, `second_max` as the
maximum of the values different from `max` (0 if none remain), and
`third_max` as the maximum of the remaining values different from
`second_max` (0 if none remain); in the marked tree every node whose RSS
equals `max` is flagged rank-1 (all ties included), a node whose RSS
equals `second_max` is flagged rank-2 exactly when `second_max > 0`, and
a node whose RSS equals `third_max` is flagged rank-3 exactly when
`third_max > 0`.  In particular the RSS multiset [100, 100, 50, 10]
yields two rank-1 nodes, one rank-2 and one rank-3, while [100] alone has
`second_max = third_max = 0` and no rank-2/3 node. -/
theorem claim1_rank_marking :
    (∀ t : ProcTree,
      (treeMaxOf t ∈ collectAllRssInTree t ∧
        ∀ v ∈ collectAllRssInTree t, v ≤ treeMaxOf t) ∧
      (treeFilteredRss t ≠ [] →
        treeSecondMaxOf t ∈ collectAllRssInTree t ∧
          treeSecondMaxOf t ≠ treeMaxOf t ∧
          ∀ v ∈ collectAllRssInTree t, v ≠ treeMaxOf t → v ≤ treeSecondMaxOf t) ∧
      (treeFilteredRss t = [] → treeSecondMaxOf t = 0) ∧
      ((treeFilteredRss t).filter (fun v => v ≠ treeSecondMaxOf t) ≠ [] →
        treeThirdMaxOf t ∈ collectAllRssInTree t ∧
          treeThirdMaxOf t ≠ treeMaxOf t ∧
          treeThirdMaxOf t ≠ treeSecondMaxOf t ∧
          ∀ v ∈ collectAllRssInTree t, v ≠ treeMaxOf t → v ≠ treeSecondMaxOf t →
            v ≤ treeThirdMaxOf t) ∧
      ((treeFilteredRss t).filter (fun v => v ≠ treeSecondMaxOf t) = [] →
        treeThirdMaxOf t = 0) ∧
      (∀ d ∈ allNodes (analyzeRank t),
        (d.rss = treeMaxOf t → d.isMaxMemory = true) ∧
        (d.rss = treeSecondMaxOf t →
          (d.isSecondMaxMemory = true ↔ 0 < treeSecondMaxOf t)) ∧
        (d.rss = treeThirdMaxOf t →
          (d.isThirdMaxMemory = true ↔ 0 < treeThirdMaxOf t)))) ∧
    (allNodes (analyzeRank (.mk ⟨1, [], 100, 0, 1, false, false, false⟩
        [.mk ⟨2, [], 100, 0, 1, false, false, false⟩ [],
         .mk ⟨3, [], 50, 0, 1, false, false, false⟩ [],
         .mk ⟨4, [], 10, 0, 1, false, false, false⟩ []]))).map
        (fun d => (d.rss, d.isMaxMemory, d.isSecondMaxMemory, d.isThirdMaxMemory)) =
      [(100, true, false, false), (100, true, false, false),
       (50, false, true, false), (10, false, false, true)] ∧
    treeSecondMaxOf (.mk ⟨1, [], 100, 0, 1, false, false, false⟩ []) = 0 ∧
    treeThirdMaxOf (.mk ⟨1, [], 100, 0, 1, false, false, false⟩ []) = 0 ∧
    (allNodes (analyzeRank (.mk ⟨1, [], 100, 0, 1, false, false, false⟩ []))).map
        (fun d => (d.rss, d.isMaxMemory, d.isSecondMaxMemory, d.isThirdMaxMemory)) =
      [(100, true, false, false)] := by
  refine ⟨?_, by decide, by decide, by decide, by decide⟩
  intro t
  refine ⟨⟨pyMaxOr0_mem (collect_ne_nil t), fun v hv => le_pyMaxOr0 hv⟩,
    ?_, ?_, ?_, ?_, ?_⟩
  · intro hfr
    have hmem : treeSecondMaxOf t ∈ treeFilteredRss t := pyMaxOr0_mem hfr
    have hmem' := hmem
    rw [treeFilteredRss, List.mem_filter] at hmem'
    refine ⟨hmem'.1, of_decide_eq_true hmem'.2, ?_⟩
    intro v hv hvne
    refine le_pyMaxOr0 ?_
    rw [treeFilteredRss, List.mem_filter]
    exact ⟨hv, decide_eq_true hvne⟩
  · intro hfr
    rw [treeSecondMaxOf, hfr]
    rfl
  · intro hfr2
    have hfrne : treeFilteredRss t ≠ [] := by
      intro hnil
      rw [hnil] at hfr2
      exact hfr2 rfl
    have hlen : (treeFilteredRss t).length > 0 := List.length_pos.mpr hfrne
    rw [treeThirdMaxOf, if_pos hlen]
    have hmem := pyMaxOr0_mem hfr2
    have hmem2 := hmem
    rw [List.mem_filter] at hmem2
    have hfr' := hmem2.1
    rw [treeFilteredRss, List.mem_filter] at hfr'
    refine ⟨hfr'.1, of_decide_eq_true hfr'.2, of_decide_eq_true hmem2.2, ?_⟩
    intro v hv hvm hvs
    refine le_pyMaxOr0 ?_
    rw [List.mem_filter]
    refine ⟨?_, decide_eq_true hvs⟩
    rw [treeFilteredRss, List.mem_filter]
    exact ⟨hv, decide_eq_true hvm⟩
  · intro hfr2
    rw [treeThirdMaxOf]
    by_cases hc : (treeFilteredRss t).length > 0
    · rw [if_pos hc, hfr2]
      rfl
    · rw [if_neg hc]
  · intro d hd
    rw [analyzeRank_eq, allNodes_mark, allNodes_reset, List.map_map] at hd
    obtain ⟨d0, hd0, rfl⟩ := List.mem_map.mp hd
    simp only [Function.comp_apply]
    have hflags := markData_flags_of_cleared (treeMaxOf t) (treeSecondMaxOf t)
      (treeThirdMaxOf t) (clearFlagsData d0) rfl rfl rfl
    have hrss : (markData (treeMaxOf t) (treeSecondMaxOf t) (treeThirdMaxOf t)
        (clearFlagsData d0)).rss = (clearFlagsData d0).rss := markData_rss _ _ _ _
    refine ⟨?_, ?_, ?_⟩
    · intro h
      refine hflags.1.mpr ?_
      rw [← hrss]
      exact h
    · intro h
      have hc : (clearFlagsData d0).rss = treeSecondMaxOf t := by
        rw [← hrss]; exact h
      constructor
      · intro hset
        exact (hflags.2.1.mp hset).2.2
      · intro hpos
        refine hflags.2.1.mpr ⟨?_, hc, hpos⟩
        rw [hc]
        exact secondMax_ne_max_of_pos t hpos
    · intro h
      have hc : (clearFlagsData d0).rss = treeThirdMaxOf t := by
        rw [← hrss]; exact h
      constructor
      · intro hset
        exact (hflags.2.2.mp hset).2.2.2
      · intro hpos
        obtain ⟨hnm, hns⟩ := thirdMax_props_of_pos t hpos
        refine hflags.2.2.mpr ⟨?_, ?_, hc, hpos⟩
        · rw [hc]
          exact hnm
        · intro hcontra
          rw [hc] at hcontra
          exact hns hcontra.1

/-- Witness for C1: in the [100, 100, 50, 10] example tree, the marked
node holding 50 bytes is flagged rank-2. -/
theorem claim1_witness :
    ({ pid := 3, name := [], rss := 50, vsz := 0, parentPid := 1,
       isMaxMemory := false, isSecondMaxMemory := true,
       isThirdMaxMemory := false } : NodeData).isSecondMaxMemory = true :=
  (((claim1_rank_marking.1 (.mk ⟨1, [], 100, 0, 1, false, false, false⟩
      [.mk ⟨2, [], 100, 0, 1, false, false, false⟩ [],
       .mk ⟨3, [], 50, 0, 1, false, false, false⟩ [],
       .mk ⟨4, [], 10, 0, 1, false, false, false⟩ []])).2.2.2.2.2 _
    (by decide)).2.1 (by decide)).mpr (by decide)

end Memon

namespace Memon

/-! ## Memory formatting: rounding and thresholds -/

theorem roundHalfEven_mono {a b : ℚ} (h : a ≤ b) :
    roundHalfEven a ≤ roundHalfEven b := by
  have hfl : ⌊a⌋ ≤ ⌊b⌋ := Int.floor_mono h
  rcases lt_or_eq_of_le hfl with hlt | heq
  · have h1 : roundHalfEven a ≤ ⌊a⌋ + 1 := by
      unfold roundHalfEven
      split
      · omega
      split
      · omega
      split
      · omega
      · omega
    have h2 : (⌊b⌋ : ℤ) ≤ roundHalfEven b := by
      unfold roundHalfEven
      split
      · omega
      split
      · omega
      split
      · omega
      · omega
    omega
  · have hr : a - ⌊a⌋ ≤ b - ⌊b⌋ := by
      rw [← heq]
      linarith
    unfold roundHalfEven
    rw [← heq]
    by_cases hc1 : a - ⌊a⌋ < 1 / 2
    · rw [if_pos hc1]
      split
      · omega
      split
      · omega
      split
      · omega
      · omega
    · rw [if_neg hc1]
      have hc2 : ¬(b - ⌊a⌋ < 1 / 2) := by
        rw [heq]
        intro hcon
        exact hc1 (by rw [heq]; linarith)
      rw [if_neg hc2]
      by_cases hd1 : 1 / 2 < a - ⌊a⌋
      · have hd2 : 1 / 2 < b - ⌊a⌋ := by
          rw [heq]
          calc (1 / 2 : ℚ) < a - ⌊a⌋ := hd1
          _ ≤ b - ⌊b⌋ := hr
        rw [if_pos hd1, if_pos hd2]
      · rw [if_neg hd1]
        by_cases hd2 : 1 / 2 < b - ⌊a⌋
        · rw [if_pos hd2]
          split
          · omega
          · omega
        · rw [if_neg hd2]


theorem roundHalfEven_intCast (n : ℤ) : roundHalfEven (n : ℚ) = n := by
  unfold roundHalfEven
  rw [Int.floor_intCast]
  rw [if_pos (by norm_num : ((n : ℚ) - n) < 1 / 2)]

theorem one_le_gb_iff (b : ℕ) :
    (1 : ℚ) ≤ (b : ℚ) / (1024 * 1024) / 1024 ↔ 1073741824 ≤ b := by
  rw [div_div, le_div_iff₀ (by norm_num : (0 : ℚ) < 1024 * 1024 * 1024), one_mul]
  norm_cast

theorem formatMemory_megabytes_inv {b : ℕ} {t : ℤ}
    (h : formatMemory b = .megabytes t) :
    t = roundHalfEven (10 * ((b : ℚ) / (1024 * 1024))) := by
  simp only [formatMemory] at h
  by_cases hb : b = 0
  · rw [if_pos hb] at h
    exact absurd h (by simp)
  · rw [if_neg hb] at h
    by_cases hg : (1 : ℚ) ≤ (b : ℚ) / (1024 * 1024) / 1024
    · rw [if_pos hg] at h
      exact absurd h (by simp)
    · rw [if_neg hg] at h
      injection h with ht
      exact ht.symm

theorem formatMemory_gigabytes_inv {b : ℕ} {t : ℤ}
    (h : formatMemory b = .gigabytes t) :
    t = roundHalfEven (10 * ((b : ℚ) / (1024 * 1024) / 1024)) := by
  simp only [formatMemory] at h
  by_cases hb : b = 0
  · rw [if_pos hb] at h
    exact absurd h (by simp)
  · rw [if_neg hb] at h
    by_cases hg : (1 : ℚ) ≤ (b : ℚ) / (1024 * 1024) / 1024
    · rw [if_pos hg] at h
      injection h with ht
      exact ht.symm
    · rw [if_neg hg] at h
      exact absurd h (by simp)

/-- Claim C7: `format_memory` returns `"0B"` iff the byte count is zero;
otherwise it renders a one-decimal gigabyte figure exactly when
`megabytes / 1024 ≥ 1`, i.e. when the byte count is at least 2^30, and a
one-decimal megabyte figure below that; and within each unit the rendered
tenths value is monotonically non-decreasing in the byte count.  Python's
float arithmetic is embedded as exact rational arithmetic with
round-half-even formatting. -/
theorem claim7_format_memory :
    (∀ b : ℕ, formatMemory b = .zeroBytes ↔ b = 0) ∧
    (∀ b : ℕ, 0 < b → b < 1073741824 →
      formatMemory b = .megabytes (roundHalfEven (10 * ((b : ℚ) / (1024 * 1024))))) ∧
    (∀ b : ℕ, 1073741824 ≤ b →
      formatMemory b =
        .gigabytes (roundHalfEven (10 * ((b : ℚ) / (1024 * 1024) / 1024)))) ∧
    (∀ b₁ b₂ : ℕ, ∀ t₁ t₂ : ℤ, b₁ ≤ b₂ →
      formatMemory b₁ = .megabytes t₁ → formatMemory b₂ = .megabytes t₂ →
        t₁ ≤ t₂) ∧
    (∀ b₁ b₂ : ℕ, ∀ t₁ t₂ : ℤ, b₁ ≤ b₂ →
      formatMemory b₁ = .gigabytes t₁ → formatMemory b₂ = .gigabytes t₂ →
        t₁ ≤ t₂) := by
  refine ⟨?_, ?_, ?_, ?_, ?_⟩
  · intro b
    simp only [formatMemory]
    by_cases hb : b = 0
    · rw [if_pos hb]
      exact iff_of_true rfl hb
    · rw [if_neg hb]
      refine iff_of_false ?_ hb
      split
      · simp
      · simp
  · intro b hb0 hblt
    simp only [formatMemory]
    rw [if_neg (Nat.pos_iff_ne_zero.mp hb0)]
    rw [if_neg (by rw [one_le_gb_iff]; omega)]
  · intro b hb
    simp only [formatMemory]
    rw [if_neg (by omega : ¬b = 0)]
    rw [if_pos ((one_le_gb_iff b).mpr hb)]
  · intro b₁ b₂ t₁ t₂ hle h1 h2
    rw [formatMemory_megabytes_inv h1, formatMemory_megabytes_inv h2]
    apply roundHalfEven_mono
    gcongr
  · intro b₁ b₂ t₁ t₂ hle h1 h2
    rw [formatMemory_gigabytes_inv h1, formatMemory_gigabytes_inv h2]
    apply roundHalfEven_mono
    gcongr

theorem claim7_witness :
    (10 : ℤ) ≤ 20 ∧ formatMemory 1048576 = .megabytes 10 := by
  have h1 : formatMemory 1048576 = .megabytes 10 := by
    rw [claim7_format_memory.2.1 1048576 (by norm_num) (by norm_num)]
    rw [show ((1048576 : ℕ) : ℚ) / (1024 * 1024) = 1 by norm_num]
    rw [show (10 : ℚ) * 1 = ((10 : ℤ) : ℚ) by norm_num]
    rw [roundHalfEven_intCast]
  have h2 : formatMemory 2097152 = .megabytes 20 := by
    rw [claim7_format_memory.2.1 2097152 (by norm_num) (by norm_num)]
    rw [show ((2097152 : ℕ) : ℚ) / (1024 * 1024) = 2 by norm_num]
    rw [show (10 : ℚ) * 2 = ((20 : ℤ) : ℚ) by norm_num]
    rw [roundHalfEven_intCast]
  exact ⟨claim7_format_memory.2.2.2.1 1048576 2097152 10 20 (by norm_num) h1 h2, h1⟩


end Memon
